import Mathlib

/-!
Shallow embedding of the strategy-engine core of the forex-algo-trader
repository (files `src/strategies/base_strategy.py` and
`src/strategies/sma_crossover.py`), together with theorems settling the
specification claims about it.

Conventions of the embedding:
* prices, times and derived quantities are rationals (`ℚ`); the Python code
  uses IEEE doubles, and every claim here is about exact arithmetic
  structure (signs, definedness, counts), not rounding;
* a pandas value that is `NaN` ("undefined") is modelled as `none` of an
  `Option ℚ`; pandas comparisons involving `NaN` are `False`, which the
  `Option`-level comparison helpers reproduce;
* a pandas `Series` aligned to the candle index is modelled as a function
  `ℕ → Option ℚ` (or `ℕ → Int` for integer columns that are never `NaN`),
  `none` outside the frame's index range.
-/

namespace ForexAlgo

/-- Comparison `a > b` on possibly-undefined values: pandas evaluates any
comparison with `NaN` as `False`. -/
def oGT (a b : Option ℚ) : Bool :=
  match a, b with
  | some x, some y => decide (y < x)
  | _, _ => false

/-- Comparison `a ≤ b` on possibly-undefined values, `False` if either is
undefined. -/
def oLE (a b : Option ℚ) : Bool :=
  match a, b with
  | some x, some y => decide (x ≤ y)
  | _, _ => false

/-- Comparison `a < b` on possibly-undefined values, `False` if either is
undefined. -/
def oLT (a b : Option ℚ) : Bool :=
  match a, b with
  | some x, some y => decide (x < y)
  | _, _ => false

/-- Comparison `a ≥ b` on possibly-undefined values, `False` if either is
undefined. -/
def oGE (a b : Option ℚ) : Bool :=
  match a, b with
  | some x, some y => decide (y ≤ x)
  | _, _ => false

/-- The trailing window of the last `p` values of `xs` ending at index `i`
(inclusive), as used by `Series.rolling(window=p)`. -/
def trailingWindow (xs : List ℚ) (p i : ℕ) : List ℚ :=
  (xs.drop (i + 1 - p)).take p

/-- `TechnicalIndicators.sma`: `data.rolling(window=period,
min_periods=period).mean()`.  Value at index `i` is defined exactly when the
window holds `period` observations, i.e. `period ≤ i+1`, and `i` is a valid
index of the series. -/
def sma (xs : List ℚ) (period : ℕ) (i : ℕ) : Option ℚ :=
  if period ≤ i + 1 ∧ i < xs.length then
    some ((trailingWindow xs period i).sum / (period : ℚ))
  else none

/-- The `sma_diff` column of `SMACrossoverStrategy.calculate_indicators`:
`sma_short - sma_long`, `NaN` (here `none`) when either operand is. -/
def smaDiff (xs : List ℚ) (s l : ℕ) (i : ℕ) : Option ℚ :=
  match sma xs s i, sma xs l i with
  | some a, some b => some (a - b)
  | _, _ => none

/-- `sma_diff.shift(1)`: the previous row's diff, undefined at row 0. -/
def smaDiffPrev (xs : List ℚ) (s l : ℕ) (i : ℕ) : Option ℚ :=
  if i = 0 then none else smaDiff xs s l (i - 1)

/-- The `crossover` column of `calculate_indicators`: initialized to `0`,
then set to `1` on the mask `(sma_diff > 0) & (sma_diff.shift(1) <= 0)` and
to `-1` on the mask `(sma_diff < 0) & (sma_diff.shift(1) >= 0)` (the
second assignment runs last; the two masks are disjoint). -/
def crossover (xs : List ℚ) (s l : ℕ) (i : ℕ) : Int :=
  if oLT (smaDiff xs s l i) (some 0) && oGE (smaDiffPrev xs s l i) (some 0) then -1
  else if oGT (smaDiff xs s l i) (some 0) && oLE (smaDiffPrev xs s l i) (some 0) then 1
  else 0

/-- One iteration of the confirmation loop in
`SMACrossoverStrategy.generate_signals` (the `min_candles_after_cross > 1`
branch): for loop index `i`, if `crossover[i] != 0` and
`i + min_candles_after_cross < len(data)`, confirm the crossover at
`future_idx = i + k` (`sma_short > sma_long` for a golden cross,
`sma_short < sma_long` for a death cross) and on success write the signal
at `future_idx`; otherwise the signal column is left unchanged. -/
def sigStep (xs : List ℚ) (s l k : ℕ) (g : ℕ → Int) (i : ℕ) : ℕ → Int :=
  if crossover xs s l i ≠ 0 then
    if i + k < xs.length then
      if crossover xs s l i = 1 then
        if oGT (sma xs s (i + k)) (sma xs l (i + k)) then
          Function.update g (i + k) 1
        else g
      else if crossover xs s l i = -1 then
        if oLT (sma xs s (i + k)) (sma xs l (i + k)) then
          Function.update g (i + k) (-1)
        else g
      else g
    else g
  else g

/-- The `signal` column produced by `SMACrossoverStrategy.generate_signals`:
if `min_candles_after_cross > 1` the column starts at all zeros and the
confirmation loop runs over every row index; otherwise the crossover column
is copied verbatim (`self.data['signal'] = self.data['crossover']`). -/
def signalSeries (xs : List ℚ) (s l : ℕ) (minCandlesAfterCross : Int) : ℕ → Int :=
  if 1 < minCandlesAfterCross then
    (List.range xs.length).foldl (sigStep xs s l minCandlesAfterCross.toNat) (fun _ => 0)
  else
    fun i => crossover xs s l i

/-- The `signal_strength` column: `abs(sma_diff) / close * 100`, undefined
where `sma_diff` is. -/
def signalStrength (xs : List ℚ) (s l : ℕ) (i : ℕ) : Option ℚ :=
  (smaDiff xs s l i).map (fun d => |d| / xs.getD i 0 * 100)

/-- A row of the signal frame as consumed by
`SMACrossoverStrategy.get_entry_exit_pairs`: its `time`, `close` and
`signal` columns. -/
structure Row where
  time : ℚ
  close : ℚ
  signal : Int
deriving DecidableEq, Repr

/-- A position direction held by the trade-reconstruction state machine. -/
inductive PosType
  | long
  | short
deriving DecidableEq, Repr

/-- A completed trade record as appended by `get_entry_exit_pairs`. -/
structure Trade where
  entry_time : ℚ
  entry_price : ℚ
  exit_time : ℚ
  exit_price : ℚ
  position_type : PosType
  pips_profit : ℚ
  percent_profit : ℚ
deriving DecidableEq, Repr

/-- The open-position state of `get_entry_exit_pairs`: `position`,
`entry_price` and `entry_time` of the Python loop (`none` models
`position is None`). -/
structure OpenPos where
  pos : PosType
  entry_price : ℚ
  entry_time : ℚ
deriving DecidableEq, Repr

/-- The trade record appended when a long position opened at
`(entry_time, entry_price)` is closed by row `r`. -/
def closeLong (p : OpenPos) (r : Row) : Trade :=
  { entry_time := p.entry_time
    entry_price := p.entry_price
    exit_time := r.time
    exit_price := r.close
    position_type := PosType.long
    pips_profit := (r.close - p.entry_price) * 10000
    percent_profit := (r.close - p.entry_price) / p.entry_price * 100 }

/-- The trade record appended when a short position opened at
`(entry_time, entry_price)` is closed by row `r`. -/
def closeShort (p : OpenPos) (r : Row) : Trade :=
  { entry_time := p.entry_time
    entry_price := p.entry_price
    exit_time := r.time
    exit_price := r.close
    position_type := PosType.short
    pips_profit := (p.entry_price - r.close) * 10000
    percent_profit := (p.entry_price - r.close) / p.entry_price * 100 }

/-- The iteration of `get_entry_exit_pairs` over the non-zero-signal rows:
with no open position any `±1` signal opens a position at that row's
`(time, close)`; a `-1` signal against an open long (resp. `+1` against an
open short) appends one trade record and immediately reverses the position
at the same `(time, close)`; a signal matching the held direction changes
nothing; when the rows are exhausted the accumulated trade list is
returned as is. -/
def pairsLoop : Option OpenPos → List Trade → List Row → List Trade
  | _, trades, [] => trades
  | none, trades, r :: rest =>
    if r.signal = 1 then
      pairsLoop (some ⟨PosType.long, r.close, r.time⟩) trades rest
    else if r.signal = -1 then
      pairsLoop (some ⟨PosType.short, r.close, r.time⟩) trades rest
    else
      pairsLoop none trades rest
  | some p, trades, r :: rest =>
    match p.pos with
    | PosType.long =>
      if r.signal = -1 then
        pairsLoop (some ⟨PosType.short, r.close, r.time⟩)
          (trades ++ [closeLong p r]) rest
      else
        pairsLoop (some p) trades rest
    | PosType.short =>
      if r.signal = 1 then
        pairsLoop (some ⟨PosType.long, r.close, r.time⟩)
          (trades ++ [closeShort p r]) rest
      else
        pairsLoop (some p) trades rest

/-- `SMACrossoverStrategy.get_entry_exit_pairs`: filter the frame to rows
with a non-zero signal, then run the entry/exit state machine starting
flat with an empty ledger. -/
def getEntryExitPairs (rows : List Row) : List Trade :=
  pairsLoop none [] (rows.filter (fun r => r.signal ≠ 0))

/-- The profit factor as reported by `get_performance_summary`:
`float('inf')` is an explicit sentinel value, not an error. -/
inductive ProfitFactor
  | posInf
  | val (q : ℚ)
deriving DecidableEq, Repr

/-- The non-empty-ledger dictionary returned by
`SMACrossoverStrategy.get_performance_summary`. -/
structure PerfSummary where
  total_trades : ℕ
  winning_trades : ℕ
  losing_trades : ℕ
  win_rate : ℚ
  total_pips : ℚ
  average_pips_per_trade : ℚ
  best_trade_pips : ℚ
  worst_trade_pips : ℚ
  average_win_pips : ℚ
  average_loss_pips : ℚ
  profit_factor : ProfitFactor
  total_return_percent : ℚ
deriving DecidableEq, Repr

/-- `Series.mean()` of a column, `0` for the empty column (the code guards
every `.mean()` call on a possibly-empty column with a length check). -/
def listMean (xs : List ℚ) : ℚ := xs.sum / (xs.length : ℚ)

/-- `Series.max()` over a non-empty column. -/
def listMax : List ℚ → ℚ
  | [] => 0
  | x :: xs => xs.foldl max x

/-- `Series.min()` over a non-empty column. -/
def listMin : List ℚ → ℚ
  | [] => 0
  | x :: xs => xs.foldl min x

/-- The aggregate dictionary `get_performance_summary` builds from a
non-empty trade ledger: winning trades are those with `pips_profit > 0`,
losing trades those with `pips_profit < 0`; `profit_factor` is
`abs(winning_sum / losing_sum)` when there is at least one losing trade
and the losing-pip sum is non-zero, else the `float('inf')` sentinel. -/
def summaryOfTrades (trades : List Trade) : PerfSummary :=
  let winning := trades.filter (fun t => 0 < t.pips_profit)
  let losing := trades.filter (fun t => t.pips_profit < 0)
  let pips := trades.map (fun t => t.pips_profit)
  { total_trades := trades.length
    winning_trades := winning.length
    losing_trades := losing.length
    win_rate :=
      if 0 < trades.length then
        (winning.length : ℚ) / (trades.length : ℚ) * 100
      else 0
    total_pips := pips.sum
    average_pips_per_trade := listMean pips
    best_trade_pips := listMax pips
    worst_trade_pips := listMin pips
    average_win_pips :=
      if 0 < winning.length then listMean (winning.map (fun t => t.pips_profit)) else 0
    average_loss_pips :=
      if 0 < losing.length then listMean (losing.map (fun t => t.pips_profit)) else 0
    profit_factor :=
      if 0 < losing.length ∧ (losing.map (fun t => t.pips_profit)).sum ≠ 0 then
        ProfitFactor.val |(winning.map (fun t => t.pips_profit)).sum /
          (losing.map (fun t => t.pips_profit)).sum|
      else ProfitFactor.posInf
    total_return_percent := (trades.map (fun t => t.percent_profit)).sum }

/-- The result of `get_performance_summary`: the empty ledger returns the
explicit no-trades dictionary, never an error. -/
inductive PerfResult
  | noTrades
  | summary (p : PerfSummary)
deriving DecidableEq, Repr

/-- `SMACrossoverStrategy.get_performance_summary` as a function of the
signal frame: reconstruct the ledger with `get_entry_exit_pairs`, return
the no-trades marker when it is empty, else the aggregate summary. -/
def getPerformanceSummary (rows : List Row) : PerfResult :=
  let trades := getEntryExitPairs rows
  if trades.length = 0 then PerfResult.noTrades
  else PerfResult.summary (summaryOfTrades trades)

/-- The `adjust=False` exponentially weighted mean recursion used by
`Series.ewm`: `y[0] = x[0]`, `y[i] = (1-α)·y[i-1] + α·x[i]`. -/
def ewmVal (α : ℚ) (xs : List ℚ) : ℕ → ℚ
  | 0 => xs.getD 0 0
  | i + 1 => (1 - α) * ewmVal α xs i + α * xs.getD (i + 1) 0

/-- `TechnicalIndicators.ema`: `data.ewm(span=period, adjust=False,
min_periods=period).mean()` with smoothing factor `2/(period+1)`; the
`min_periods` mask leaves the first `period-1` entries undefined. -/
def ema (xs : List ℚ) (period : ℕ) (i : ℕ) : Option ℚ :=
  if period ≤ i + 1 ∧ i < xs.length then
    some (ewmVal (2 / ((period : ℚ) + 1)) xs i)
  else none

/-- The `macd_line` of `TechnicalIndicators.macd`:
`data.ewm(span=fast, adjust=False).mean() - data.ewm(span=slow,
adjust=False).mean()`.  Neither `ewm` call passes `min_periods`, so the
line has a value at every in-frame index. -/
def macdLine (xs : List ℚ) (fast slow : ℕ) (i : ℕ) : Option ℚ :=
  if i < xs.length then
    some (ewmVal (2 / ((fast : ℚ) + 1)) xs i - ewmVal (2 / ((slow : ℚ) + 1)) xs i)
  else none

/-- The `macd_line` as a materialized series, input to the signal line. -/
def macdLineList (xs : List ℚ) (fast slow : ℕ) : List ℚ :=
  (List.range xs.length).map
    (fun i => ewmVal (2 / ((fast : ℚ) + 1)) xs i - ewmVal (2 / ((slow : ℚ) + 1)) xs i)

/-- The `signal_line` of `TechnicalIndicators.macd`:
`macd_line.ewm(span=signal, adjust=False).mean()` — again with no
`min_periods`. -/
def macdSignalLine (xs : List ℚ) (fast slow sig : ℕ) (i : ℕ) : Option ℚ :=
  if i < xs.length then
    some (ewmVal (2 / ((sig : ℚ) + 1)) (macdLineList xs fast slow) i)
  else none

/-- The `histogram` of `TechnicalIndicators.macd`:
`macd_line - signal_line`. -/
def macdHistogram (xs : List ℚ) (fast slow sig : ℕ) (i : ℕ) : Option ℚ :=
  match macdLine xs fast slow i, macdSignalLine xs fast slow sig i with
  | some a, some b => some (a - b)
  | _, _ => none

/-- The gain series of `TechnicalIndicators.rsi`:
`delta.where(delta > 0, 0)`.  `delta = data.diff()` is `NaN` at row 0, and
`NaN > 0` is `False`, so `where` replaces row 0 by `0` as well. -/
def rsiGains (xs : List ℚ) : List ℚ :=
  (List.range xs.length).map (fun j =>
    if j = 0 then 0
    else if 0 < xs.getD j 0 - xs.getD (j - 1) 0 then xs.getD j 0 - xs.getD (j - 1) 0
    else 0)

/-- The loss series of `TechnicalIndicators.rsi`:
`-delta.where(delta < 0, 0)`, with row 0 likewise replaced by `0`. -/
def rsiLosses (xs : List ℚ) : List ℚ :=
  (List.range xs.length).map (fun j =>
    if j = 0 then 0
    else if xs.getD j 0 - xs.getD (j - 1) 0 < 0 then -(xs.getD j 0 - xs.getD (j - 1) 0)
    else 0)

/-- `TechnicalIndicators.rsi`: `100 - 100/(1 + rs)` with
`rs = gain.rolling(period).mean() / loss.rolling(period).mean()`.
Floating-point division semantics are mapped to `Option`: `0/0` is `NaN`
(`none`), and a positive gain mean over a zero loss mean is `+inf`, for
which `100 - 100/(1 + inf) = 100`. -/
def rsi (xs : List ℚ) (period : ℕ) (i : ℕ) : Option ℚ :=
  match sma (rsiGains xs) period i, sma (rsiLosses xs) period i with
  | some g, some l =>
    if l = 0 then (if g = 0 then none else some 100)
    else some (100 - 100 / (1 + g / l))
  | _, _ => none

/-- The `true_range` series of `TechnicalIndicators.atr`: the row-wise
`max` (skipping `NaN`) of `high-low`, `|high-close.shift()|` and
`|low-close.shift()|`; at row 0 the two shifted terms are `NaN` and the
skipping `max` returns `high-low` alone. -/
def trueRange (high low close : List ℚ) (j : ℕ) : ℚ :=
  if j = 0 then high.getD 0 0 - low.getD 0 0
  else
    max (high.getD j 0 - low.getD j 0)
      (max |high.getD j 0 - close.getD (j - 1) 0| |low.getD j 0 - close.getD (j - 1) 0|)

/-- The materialized `true_range` series. -/
def trueRangeList (high low close : List ℚ) : List ℚ :=
  (List.range high.length).map (trueRange high low close)

/-- `TechnicalIndicators.atr`: `true_range.rolling(window=period,
min_periods=period).mean()`. -/
def atr (high low close : List ℚ) (period : ℕ) (i : ℕ) : Option ℚ :=
  sma (trueRangeList high low close) period i

/-- The sample variance of the trailing window, modelling
`data.rolling(window=period, min_periods=period).std()` up to the square
root: pandas `std` uses `ddof=1`, so a window of one observation divides
by zero (`NaN`), and for `period ≥ 2` the value is defined exactly where
the window is full.  Since the square root of a non-negative rational
variance is always a real value (never `NaN`), the Bollinger `std` column
— and hence the upper/lower bands `middle ± num_std·std` — is defined at
an index exactly when this variance is. -/
def rollingVarSample (xs : List ℚ) (period : ℕ) (i : ℕ) : Option ℚ :=
  if period ≤ i + 1 ∧ i < xs.length ∧ 2 ≤ period then
    some (((trailingWindow xs period i).map
      (fun x => (x - (trailingWindow xs period i).sum / (period : ℚ)) ^ 2)).sum /
      ((period : ℚ) - 1))
  else none

/-- The middle Bollinger band of `TechnicalIndicators.bollinger_bands`:
`data.rolling(window=period, min_periods=period).mean()`, i.e. the SMA. -/
def bollingerMiddle (xs : List ℚ) (period : ℕ) (i : ℕ) : Option ℚ :=
  sma xs period i

/-- Definedness of the upper/lower Bollinger bands
`middle ± num_std · std`: a band value exists exactly when both the middle
band and the rolling standard deviation do. -/
def bollingerBandDefined (xs : List ℚ) (period : ℕ) (i : ℕ) : Bool :=
  (bollingerMiddle xs period i).isSome && (rollingVarSample xs period i).isSome

/-- The parameter record stored by `SMACrossoverStrategy.__init__`. -/
structure SMAConfig where
  short_period : ℤ
  long_period : ℤ
  min_candles_after_cross : ℤ
deriving DecidableEq, Repr

/-- `SMACrossoverStrategy.__init__`: stores the three parameters, then
validates only `short_period >= long_period` (raising `ValueError`);
`min_candles_after_cross` is stored without any validation. -/
def smaCrossoverInit (short_period long_period min_candles_after_cross : ℤ) :
    Except String SMAConfig :=
  if long_period ≤ short_period then
    .error "Short period must be less than long period"
  else .ok ⟨short_period, long_period, min_candles_after_cross⟩

/-- A candle record with the six required fields (the `open` field is
spelled `open_` because `open` is a Lean keyword); `time` is the
timestamp, already in the totally ordered form `pd.to_datetime`
produces. -/
structure CandleRow where
  time : ℚ
  open_ : ℚ
  high : ℚ
  low : ℚ
  close : ℚ
  volume : ℚ
deriving DecidableEq, Repr

/-- The caller's data frame as passed to `BaseStrategy.load_data`: the
column list (which may be missing required columns) and the rows. -/
structure InFrame where
  cols : List String
  rows : List CandleRow
deriving DecidableEq, Repr

/-- The `required_columns` list of `BaseStrategy.load_data`. -/
def requiredColumns : List String :=
  ["time", "open", "high", "low", "close", "volume"]

/-- Row order used by `sort_values('time')`. -/
def candleLE (a b : CandleRow) : Prop := a.time ≤ b.time

instance : DecidableRel candleLE :=
  fun a b => inferInstanceAs (Decidable (a.time ≤ b.time))

instance : IsTotal CandleRow candleLE :=
  ⟨fun a b => le_total a.time b.time⟩

instance : IsTrans CandleRow candleLE :=
  ⟨fun _ _ _ h1 h2 => le_trans h1 h2⟩

/-- `BaseStrategy.load_data`: raise `ValueError` if any required column is
missing; otherwise store a copy of the input (`data.copy()`), sorted
ascending by `time` (`sort_values('time').reset_index(drop=True)`).
Unsorted input is not rejected — it is normalized by sorting. -/
def loadData (frame : InFrame) : Except String (List CandleRow) :=
  if requiredColumns.all (fun c => frame.cols.contains c) then
    .ok (List.insertionSort candleLE frame.rows)
  else .error "Data missing required columns"

/-- The engine's observable lifecycle: `self.data is None ∧ self.signals
is None` (unloaded), `self.data` set but `self.signals is None` (loaded,
`run()` not yet called), and both set (computed).  In the computed state
the per-candle result rows carry the `signal` column. -/
inductive EngineState
  | unloaded
  | loaded (candles : List CandleRow)
  | computed (rows : List Row)
deriving DecidableEq, Repr

/-- `BaseStrategy.get_all_signals`: returns an empty frame when
`self.signals is None`; otherwise filters by the requested signal type, or
to all non-zero signals when no type is given. -/
def getAllSignals (e : EngineState) (signalType : Option Int) : List Row :=
  match e with
  | EngineState.computed rows =>
    match signalType with
    | some t => rows.filter (fun r => r.signal = t)
    | none => rows.filter (fun r => r.signal ≠ 0)
  | _ => []

/-- The signal-count block of the dictionary built by
`BaseStrategy.get_summary`. -/
structure StrategySummary where
  buy_signals : ℕ
  sell_signals : ℕ
  total_signals : ℕ
  buy_percentage : ℚ
  sell_percentage : ℚ
deriving DecidableEq, Repr

/-- `BaseStrategy.get_summary`: returns the empty dictionary (`none`
here) when `self.signals is None`; otherwise the signal statistics. -/
def getSummary (e : EngineState) : Option StrategySummary :=
  match e with
  | EngineState.computed rows =>
    let buy := (rows.filter (fun r => r.signal = 1)).length
    let sell := (rows.filter (fun r => r.signal = -1)).length
    let total := buy + sell
    some
      { buy_signals := buy
        sell_signals := sell
        total_signals := total
        buy_percentage := if 0 < total then (buy : ℚ) / (total : ℚ) * 100 else 0
        sell_percentage := if 0 < total then (sell : ℚ) / (total : ℚ) * 100 else 0 }
  | _ => none

/-- `BaseStrategy.export_signals`: raises `ValueError` while
`self.signals is None`; otherwise exports the rows with non-zero
signals. -/
def exportSignals (e : EngineState) : Except String (List Row) :=
  match e with
  | EngineState.computed rows => .ok (rows.filter (fun r => r.signal ≠ 0))
  | _ => .error "No signals to export. Run the strategy first."

/-- `SMACrossoverStrategy.get_performance_summary` as invoked on an
engine: before `load_data` the subscript of `self.data` (which is `None`)
raises a `TypeError`; after load but before `run()` the frame has no
`signal` column, so `self.data['signal'] != 0` raises a `KeyError`; in the
computed state the ledger summary is produced.  Both exception paths are
modelled as errors. -/
def enginePerformanceSummary (e : EngineState) : Except String PerfResult :=
  match e with
  | EngineState.unloaded => .error "TypeError: NoneType is not subscriptable"
  | EngineState.loaded _ => .error "KeyError: signal"
  | EngineState.computed rows => .ok (getPerformanceSummary rows)

/-- The computed columns `calculate_indicators` and `generate_signals`
write into `self.data`. -/
structure ComputedCols where
  smaShortCol : ℕ → Option ℚ
  smaLongCol : ℕ → Option ℚ
  smaDiffCol : ℕ → Option ℚ
  crossoverCol : ℕ → Int
  signalCol : ℕ → Int
  strengthCol : ℕ → Option ℚ

/-- The strategy's data frame across `run()`: the loaded `time` and
`close` columns plus the computed columns once present. -/
structure StratFrame where
  times : List ℚ
  closes : List ℚ
  computed : Option ComputedCols

/-- The body of `run()` after the data check:
`self.data = self.calculate_indicators()` followed by
`self.signals = self.generate_signals()`.  Both read only the `close`
column of the frame and (over)write the computed columns. -/
def calculateAndGenerate (s l : ℕ) (k : Int) (f : StratFrame) : StratFrame :=
  { times := f.times
    closes := f.closes
    computed := some
      { smaShortCol := sma f.closes s
        smaLongCol := sma f.closes l
        smaDiffCol := smaDiff f.closes s l
        crossoverCol := crossover f.closes s l
        signalCol := signalSeries f.closes s l k
        strengthCol := signalStrength f.closes s l } }

/-- The engine as seen by `run()`: `self.data`, `None` before load. -/
structure SMAEngine where
  data : Option StratFrame

/-- `BaseStrategy.run`: raises when no data is loaded, otherwise computes
indicators and signals over the loaded frame. -/
def runStrategy (s l : ℕ) (k : Int) (e : SMAEngine) : Except String SMAEngine :=
  match e.data with
  | none => .error "No data loaded. Call load_data() first."
  | some f => .ok { data := some (calculateAndGenerate s l k f) }

/-!  ## Theorems settling the claims -/

/-- If the current diff is undefined, both crossover masks are false. -/
theorem crossover_none_diff {xs : List ℚ} {s l i : ℕ}
    (hd : smaDiff xs s l i = none) : crossover xs s l i = 0 := by
  simp [crossover, oLT, oGT, hd]

/-- If the previous diff is undefined, both crossover masks are false. -/
theorem crossover_none_prev {xs : List ℚ} {s l i : ℕ}
    (hp : smaDiffPrev xs s l i = none) : crossover xs s l i = 0 := by
  simp [crossover, oLE, oGE, hp]

/-- The crossover value when both diffs are defined. -/
theorem crossover_some {xs : List ℚ} {s l i : ℕ} {a b : ℚ}
    (hd : smaDiff xs s l i = some a) (hp : smaDiffPrev xs s l i = some b) :
    crossover xs s l i =
      if a < 0 ∧ 0 ≤ b then -1 else if 0 < a ∧ b ≤ 0 then 1 else 0 := by
  simp [crossover, oLT, oGT, oLE, oGE, hd, hp, Bool.and_eq_true, decide_eq_true_eq]

/-- C6: with `diff[i] = SMA(short)[i] − SMA(long)[i]`, the crossover
series marks index `i` as a golden cross (`+1`) exactly when
`diff[i] > 0` and `diff[i−1] ≤ 0` with both defined, and as a death cross
(`−1`) exactly when `diff[i] < 0` and `diff[i−1] ≥ 0` with both defined;
the earliest index with a defined diff is never itself a crossover. -/
theorem C6_crossover_classification (xs : List ℚ) (s l : ℕ) :
    (∀ i, crossover xs s l i = 1 ↔
      ∃ a b, smaDiff xs s l i = some a ∧ smaDiffPrev xs s l i = some b ∧
        0 < a ∧ b ≤ 0) ∧
    (∀ i, crossover xs s l i = -1 ↔
      ∃ a b, smaDiff xs s l i = some a ∧ smaDiffPrev xs s l i = some b ∧
        a < 0 ∧ 0 ≤ b) ∧
    (∀ i, (smaDiff xs s l i).isSome →
      (∀ j, j < i → smaDiff xs s l j = none) → crossover xs s l i = 0) := by
  refine ⟨?_, ?_, ?_⟩
  · intro i
    constructor
    · intro h
      cases hd : smaDiff xs s l i with
      | none => rw [crossover_none_diff hd] at h; exact absurd h (by decide)
      | some a =>
        cases hp : smaDiffPrev xs s l i with
        | none => rw [crossover_none_prev hp] at h; exact absurd h (by decide)
        | some b =>
          rw [crossover_some hd hp] at h
          by_cases h1 : a < 0 ∧ 0 ≤ b
          · rw [if_pos h1] at h; exact absurd h (by decide)
          · rw [if_neg h1] at h
            by_cases h2 : 0 < a ∧ b ≤ 0
            · exact ⟨a, b, rfl, rfl, h2⟩
            · rw [if_neg h2] at h; exact absurd h (by decide)
    · rintro ⟨a, b, hd, hp, hpos, hle⟩
      rw [crossover_some hd hp, if_neg (by rintro ⟨h1, _⟩; linarith), if_pos ⟨hpos, hle⟩]
  · intro i
    constructor
    · intro h
      cases hd : smaDiff xs s l i with
      | none => rw [crossover_none_diff hd] at h; exact absurd h (by decide)
      | some a =>
        cases hp : smaDiffPrev xs s l i with
        | none => rw [crossover_none_prev hp] at h; exact absurd h (by decide)
        | some b =>
          rw [crossover_some hd hp] at h
          by_cases h1 : a < 0 ∧ 0 ≤ b
          · exact ⟨a, b, rfl, rfl, h1⟩
          · rw [if_neg h1] at h
            by_cases h2 : 0 < a ∧ b ≤ 0
            · rw [if_pos h2] at h; exact absurd h (by decide)
            · rw [if_neg h2] at h; exact absurd h (by decide)
    · rintro ⟨a, b, hd, hp, hneg, hge⟩
      rw [crossover_some hd hp, if_pos ⟨hneg, hge⟩]
  · intro i hs hfirst
    have hp : smaDiffPrev xs s l i = none := by
      unfold smaDiffPrev
      split
      · rfl
      · next h => exact hfirst (i - 1) (by omega)
    exact crossover_none_prev hp

/-- Witness for C6: on closes `[1, 0, 2]` with periods 1 and 2, index 1 is
the earliest index with a defined diff and is classified `0`, and index 2
is a golden cross. -/
theorem C6_crossover_classification_witness :
    crossover [(1 : ℚ), 0, 2] 1 2 1 = 0 ∧ crossover [(1 : ℚ), 0, 2] 1 2 2 = 1 := by
  constructor
  · refine (C6_crossover_classification [(1 : ℚ), 0, 2] 1 2).2.2 1 ?_ ?_
    · simp [smaDiff, sma, trailingWindow]
    · intro j hj
      interval_cases j
      simp [smaDiff, sma, trailingWindow]
  · refine ((C6_crossover_classification [(1 : ℚ), 0, 2] 1 2).1 2).mpr
      ⟨1, -1/2, ?_, ?_, by norm_num, by norm_num⟩
    · norm_num [smaDiff, sma, trailingWindow]
    · norm_num [smaDiffPrev, smaDiff, sma, trailingWindow]

/-- C4 counterexample: construction succeeds with the invalid
confirmation-lag value `-1` (a negative number of confirmation candles),
because `__init__` validates only the period ordering — refuting "raises
an error ... whenever the confirmation-lag value is invalid". -/
theorem C4_init_lag_counterexample :
    smaCrossoverInit 2 5 (-1) = Except.ok ⟨2, 5, -1⟩ := by
  rfl

/-- C4 amended: construction raises exactly when
`short_period ≥ long_period`; the confirmation-lag value is never
validated, so construction succeeds for every lag whenever
`short_period < long_period`. -/
theorem C4_init_validation (s l k : ℤ) :
    ((∃ msg, smaCrossoverInit s l k = Except.error msg) ↔ l ≤ s) ∧
    (s < l → smaCrossoverInit s l k = Except.ok ⟨s, l, k⟩) := by
  constructor
  · constructor
    · rintro ⟨msg, hmsg⟩
      by_contra hlt
      rw [smaCrossoverInit, if_neg hlt] at hmsg
      exact Except.noConfusion hmsg
    · intro hle
      exact ⟨_, by rw [smaCrossoverInit, if_pos hle]⟩
  · intro hlt
    rw [smaCrossoverInit, if_neg (not_le.mpr hlt)]

/-- Witness for C4 amended: periods 5 and 2 are rejected, periods 2 and 5
accepted (with lag 3). -/
theorem C4_init_validation_witness :
    (∃ msg, smaCrossoverInit 5 2 1 = Except.error msg) ∧
    smaCrossoverInit 2 5 3 = Except.ok ⟨2, 5, 3⟩ :=
  ⟨(C4_init_validation 5 2 1).1.mpr (by decide),
   (C4_init_validation 2 5 3).2 (by decide)⟩

/-- C2: the entry/exit state machine over the non-zero signals, starting
flat: a signal while flat opens a position at that row's `(time, close)`;
an opposite signal closes the position, records exactly one trade, and
immediately opens the reverse position at the same `(time, close)`; a
signal matching the held direction changes nothing; exhausting the rows
with a position still open contributes no trade; and the alternating
signal subsequence `[+1, -1, +1, -1, +1]` yields exactly four trades. -/
theorem C2_trade_state_machine :
    (∀ (trades : List Trade) (r : Row) (rest : List Row), r.signal = 1 →
      pairsLoop none trades (r :: rest) =
        pairsLoop (some ⟨PosType.long, r.close, r.time⟩) trades rest) ∧
    (∀ (trades : List Trade) (r : Row) (rest : List Row), r.signal = -1 →
      pairsLoop none trades (r :: rest) =
        pairsLoop (some ⟨PosType.short, r.close, r.time⟩) trades rest) ∧
    (∀ (p : OpenPos) (trades : List Trade) (r : Row) (rest : List Row),
      p.pos = PosType.long → r.signal = -1 →
      pairsLoop (some p) trades (r :: rest) =
        pairsLoop (some ⟨PosType.short, r.close, r.time⟩)
          (trades ++ [closeLong p r]) rest) ∧
    (∀ (p : OpenPos) (trades : List Trade) (r : Row) (rest : List Row),
      p.pos = PosType.short → r.signal = 1 →
      pairsLoop (some p) trades (r :: rest) =
        pairsLoop (some ⟨PosType.long, r.close, r.time⟩)
          (trades ++ [closeShort p r]) rest) ∧
    (∀ (p : OpenPos) (trades : List Trade) (r : Row) (rest : List Row),
      p.pos = PosType.long → r.signal ≠ -1 →
      pairsLoop (some p) trades (r :: rest) = pairsLoop (some p) trades rest) ∧
    (∀ (p : OpenPos) (trades : List Trade) (r : Row) (rest : List Row),
      p.pos = PosType.short → r.signal ≠ 1 →
      pairsLoop (some p) trades (r :: rest) = pairsLoop (some p) trades rest) ∧
    (∀ (st : Option OpenPos) (trades : List Trade), pairsLoop st trades [] = trades) ∧
    (getEntryExitPairs
      [⟨0, 1, 1⟩, ⟨1, 2, -1⟩, ⟨2, 3, 1⟩, ⟨3, 4, -1⟩, ⟨4, 5, 1⟩]).length = 4 := by
  refine ⟨?_, ?_, ?_, ?_, ?_, ?_, ?_, ?_⟩
  · intro trades r rest h; simp [pairsLoop, h]
  · intro trades r rest h; simp [pairsLoop, h]
  · rintro ⟨pos, ep, et⟩ trades r rest hpos h
    subst hpos; simp [pairsLoop, h]
  · rintro ⟨pos, ep, et⟩ trades r rest hpos h
    subst hpos; simp [pairsLoop, h]
  · rintro ⟨pos, ep, et⟩ trades r rest hpos h
    subst hpos; simp [pairsLoop, h]
  · rintro ⟨pos, ep, et⟩ trades r rest hpos h
    subst hpos; simp [pairsLoop, h]
  · intro st trades; cases st <;> rfl
  · rfl

/-- Witness for C2: the four universally quantified transition rules,
applied at a concrete position and row. -/
theorem C2_trade_state_machine_witness :
    pairsLoop none [] [⟨0, 1, 1⟩] =
      pairsLoop (some ⟨PosType.long, 1, 0⟩) [] [] ∧
    pairsLoop (some ⟨PosType.long, 1, 0⟩) [] [⟨1, 2, -1⟩] =
      pairsLoop (some ⟨PosType.short, 2, 1⟩)
        [closeLong ⟨PosType.long, 1, 0⟩ ⟨1, 2, -1⟩] [] ∧
    pairsLoop (some ⟨PosType.long, 1, 0⟩) [] [⟨1, 2, 1⟩] =
      pairsLoop (some ⟨PosType.long, 1, 0⟩) [] [] ∧
    pairsLoop (some ⟨PosType.long, 1, 0⟩) [] [] = [] :=
  ⟨C2_trade_state_machine.1 [] ⟨0, 1, 1⟩ [] rfl,
   C2_trade_state_machine.2.2.1 ⟨PosType.long, 1, 0⟩ [] ⟨1, 2, -1⟩ [] rfl rfl,
   C2_trade_state_machine.2.2.2.2.1 ⟨PosType.long, 1, 0⟩ [] ⟨1, 2, 1⟩ [] rfl (by decide),
   C2_trade_state_machine.2.2.2.2.2.2.1 (some ⟨PosType.long, 1, 0⟩) []⟩

/-- A non-empty list of negative rationals has a negative sum. -/
theorem sum_neg_of_forall_neg {xs : List ℚ} (hne : xs ≠ [])
    (h : ∀ x ∈ xs, x < 0) : xs.sum < 0 := by
  induction xs with
  | nil => exact absurd rfl hne
  | cons x xs ih =>
    rw [List.sum_cons]
    rcases eq_or_ne xs [] with rfl | hxs
    · simpa using h x (by simp)
    · have hx := h x (by simp)
      have hs := ih hxs (fun y hy => h y (by simp [hy]))
      linarith

/-- Every trade is counted by exactly one of the winning, losing and
zero-pip filters. -/
theorem filter_sign_partition (trades : List Trade) :
    (trades.filter (fun t => 0 < t.pips_profit)).length +
    (trades.filter (fun t => t.pips_profit < 0)).length +
    (trades.filter (fun t => t.pips_profit = 0)).length = trades.length := by
  induction trades with
  | nil => rfl
  | cons t ts ih =>
    rcases lt_trichotomy t.pips_profit 0 with h | h | h
    · have h2 : ¬ (0 : ℚ) < t.pips_profit := by linarith
      have h3 : t.pips_profit ≠ 0 := by linarith
      simp [List.filter_cons, h, h2, h3]
      omega
    · have h2 : ¬ (0 : ℚ) < t.pips_profit := by simp [h]
      have h3 : ¬ t.pips_profit < 0 := by simp [h]
      simp [List.filter_cons, h, h2, h3]
      omega
    · have h2 : ¬ t.pips_profit < 0 := by linarith
      have h3 : t.pips_profit ≠ 0 := by linarith
      simp [List.filter_cons, h, h2, h3]
      omega

/-- C1 counterexample: the two-signal frame `buy at close 1, sell at close
1` produces a non-empty ledger with a single zero-pip trade; the code
reports `profit_factor = +infinity` although the ledger has no winning
trade, refuting the claimed "if and only if". -/
theorem C1_profit_factor_counterexample :
    (summaryOfTrades (getEntryExitPairs [⟨0, 1, 1⟩, ⟨1, 1, -1⟩])).profit_factor =
      ProfitFactor.posInf ∧
    (summaryOfTrades (getEntryExitPairs [⟨0, 1, 1⟩, ⟨1, 1, -1⟩])).winning_trades = 0 ∧
    getPerformanceSummary [⟨0, 1, 1⟩, ⟨1, 1, -1⟩] =
      PerfResult.summary (summaryOfTrades (getEntryExitPairs [⟨0, 1, 1⟩, ⟨1, 1, -1⟩])) := by
  refine ⟨?_, ?_, ?_⟩ <;>
    norm_num [getPerformanceSummary, getEntryExitPairs, pairsLoop, closeLong,
      summaryOfTrades, List.filter]

/-- C1 amended: for every non-empty trade ledger, `profit_factor` is the
`+infinity` sentinel exactly when the losing-pip sum is zero (equivalently,
when there is no losing trade) — regardless of whether any winning trade
exists; when the losing-pip sum is non-zero, `profit_factor` equals the
absolute value of the winning-pip sum divided by the losing-pip sum. -/
theorem C1_profit_factor_amended (trades : List Trade) (hne : trades ≠ []) :
    0 < (summaryOfTrades trades).total_trades ∧
    ((summaryOfTrades trades).profit_factor = ProfitFactor.posInf ↔
      ((trades.filter (fun t => t.pips_profit < 0)).map (fun t => t.pips_profit)).sum = 0) ∧
    (((trades.filter (fun t => t.pips_profit < 0)).map (fun t => t.pips_profit)).sum ≠ 0 →
      (summaryOfTrades trades).profit_factor =
        ProfitFactor.val
          |((trades.filter (fun t => 0 < t.pips_profit)).map (fun t => t.pips_profit)).sum /
           ((trades.filter (fun t => t.pips_profit < 0)).map (fun t => t.pips_profit)).sum|) := by
  have htot : 0 < (summaryOfTrades trades).total_trades := by
    simp only [summaryOfTrades]
    exact List.length_pos.mpr hne
  by_cases hl : trades.filter (fun t => t.pips_profit < 0) = []
  · have hsum : ((trades.filter (fun t => t.pips_profit < 0)).map
        (fun t => t.pips_profit)).sum = 0 := by simp [hl]
    have hpf : (summaryOfTrades trades).profit_factor = ProfitFactor.posInf := by
      simp only [summaryOfTrades]
      rw [if_neg]
      rintro ⟨hlen, _⟩
      rw [hl] at hlen
      exact absurd hlen (by simp)
    exact ⟨htot, by simp [hpf, hsum], fun h => absurd hsum h⟩
  · have hneg : ∀ x ∈ (trades.filter (fun t => t.pips_profit < 0)).map
        (fun t => t.pips_profit), x < 0 := by
      intro x hx
      obtain ⟨t, ht, rfl⟩ := List.mem_map.mp hx
      have := List.mem_filter.mp ht
      simpa using this.2
    have hsum : ((trades.filter (fun t => t.pips_profit < 0)).map
        (fun t => t.pips_profit)).sum < 0 :=
      sum_neg_of_forall_neg (by simpa using hl) hneg
    have hpf : (summaryOfTrades trades).profit_factor =
        ProfitFactor.val
          |((trades.filter (fun t => 0 < t.pips_profit)).map (fun t => t.pips_profit)).sum /
           ((trades.filter (fun t => t.pips_profit < 0)).map (fun t => t.pips_profit)).sum| := by
      simp only [summaryOfTrades]
      rw [if_pos ⟨List.length_pos.mpr hl, ne_of_lt hsum⟩]
    refine ⟨htot, ?_, fun _ => hpf⟩
    rw [hpf]
    constructor
    · intro h; exact absurd h (by simp)
    · intro h; exact absurd h (ne_of_lt hsum)

/-- Witness for C1 amended: a ledger with one winning and one losing trade
has total 2, a finite profit factor `|20000 / -10000| = 2`, and the
infinity sentinel does not apply. -/
theorem C1_profit_factor_amended_witness :
    0 < (summaryOfTrades
      [closeLong ⟨PosType.long, 1, 0⟩ ⟨1, 3, -1⟩,
       closeLong ⟨PosType.long, 3, 2⟩ ⟨3, 2, -1⟩]).total_trades ∧
    (summaryOfTrades
      [closeLong ⟨PosType.long, 1, 0⟩ ⟨1, 3, -1⟩,
       closeLong ⟨PosType.long, 3, 2⟩ ⟨3, 2, -1⟩]).profit_factor =
      ProfitFactor.val 2 := by
  have h := C1_profit_factor_amended
    [closeLong ⟨PosType.long, 1, 0⟩ ⟨1, 3, -1⟩,
     closeLong ⟨PosType.long, 3, 2⟩ ⟨3, 2, -1⟩] (by simp)
  refine ⟨h.1, ?_⟩
  have h3 := h.2.2 (by norm_num [closeLong, List.filter])
  rw [h3]
  norm_num [closeLong, List.filter]

/-- C10: a completed trade with `pips_profit` exactly zero is counted in
`total_trades` but in neither `winning_trades` nor `losing_trades`, so
their sum is strictly less than `total_trades`, while `win_rate` is still
`winning_trades / total_trades × 100`. -/
theorem C10_zero_pip_trades (trades : List Trade)
    (hz : ∃ t ∈ trades, t.pips_profit = 0) :
    (summaryOfTrades trades).total_trades = trades.length ∧
    (summaryOfTrades trades).winning_trades + (summaryOfTrades trades).losing_trades <
      (summaryOfTrades trades).total_trades ∧
    (summaryOfTrades trades).win_rate =
      ((summaryOfTrades trades).winning_trades : ℚ) /
        ((summaryOfTrades trades).total_trades : ℚ) * 100 := by
  obtain ⟨t0, ht0, hz0⟩ := hz
  have hne : trades ≠ [] := by rintro rfl; simp at ht0
  have hmem : t0 ∈ trades.filter (fun t => t.pips_profit = 0) :=
    List.mem_filter.mpr ⟨ht0, by simp [hz0]⟩
  have hzlen : 0 < (trades.filter (fun t => t.pips_profit = 0)).length :=
    List.length_pos.mpr (fun hemp => by simp [hemp] at hmem)
  have hpart := filter_sign_partition trades
  refine ⟨by simp [summaryOfTrades], ?_, ?_⟩
  · simp only [summaryOfTrades]
    omega
  · simp only [summaryOfTrades]
    rw [if_pos (List.length_pos.mpr hne)]

/-- Witness for C10: a ledger holding exactly one zero-pip trade has
total 1 but zero winning and zero losing trades. -/
theorem C10_zero_pip_trades_witness :
    (summaryOfTrades [closeLong ⟨PosType.long, 1, 0⟩ ⟨1, 1, -1⟩]).total_trades = 1 ∧
    (summaryOfTrades [closeLong ⟨PosType.long, 1, 0⟩ ⟨1, 1, -1⟩]).winning_trades +
      (summaryOfTrades [closeLong ⟨PosType.long, 1, 0⟩ ⟨1, 1, -1⟩]).losing_trades <
      (summaryOfTrades [closeLong ⟨PosType.long, 1, 0⟩ ⟨1, 1, -1⟩]).total_trades := by
  have h := C10_zero_pip_trades [closeLong ⟨PosType.long, 1, 0⟩ ⟨1, 1, -1⟩]
    ⟨closeLong ⟨PosType.long, 1, 0⟩ ⟨1, 1, -1⟩, by simp, by norm_num [closeLong]⟩
  exact ⟨h.1, h.2.1⟩

/-- The value of one confirmation-loop iteration at an arbitrary index:
iteration `i` changes only index `i + k`, and writes `1` (resp. `-1`)
there exactly when the crossover at `i` is `1` (resp. `-1`), the target is
in range, and the SMA relationship is confirmed at the target. -/
theorem sigStep_apply (xs : List ℚ) (s l k : ℕ) (g : ℕ → Int) (i j : ℕ) :
    sigStep xs s l k g i j =
      if j = i + k ∧ i + k < xs.length ∧ crossover xs s l i = 1 ∧
          oGT (sma xs s (i + k)) (sma xs l (i + k)) = true then 1
      else if j = i + k ∧ i + k < xs.length ∧ crossover xs s l i = -1 ∧
          oLT (sma xs s (i + k)) (sma xs l (i + k)) = true then -1
      else g j := by
  unfold sigStep
  by_cases hlen : i + k < xs.length
  · by_cases h1 : crossover xs s l i = 1
    · have h0 : crossover xs s l i ≠ 0 := by rw [h1]; decide
      rw [if_pos h0, if_pos hlen, if_pos h1]
      by_cases hgt : oGT (sma xs s (i + k)) (sma xs l (i + k)) = true
      · rw [if_pos hgt]
        by_cases hj : j = i + k
        · subst hj
          rw [Function.update_same, if_pos ⟨rfl, hlen, h1, hgt⟩]
        · have hne2 : ¬ (j = i + k ∧ i + k < xs.length ∧ crossover xs s l i = -1 ∧
              oLT (sma xs s (i + k)) (sma xs l (i + k)) = true) := fun h => hj h.1
          rw [Function.update_noteq hj,
            if_neg (fun h => hj h.1), if_neg hne2]
      · have hne1 : ¬ (j = i + k ∧ i + k < xs.length ∧ crossover xs s l i = 1 ∧
            oGT (sma xs s (i + k)) (sma xs l (i + k)) = true) := fun h => hgt h.2.2.2
        have hne2 : ¬ (j = i + k ∧ i + k < xs.length ∧ crossover xs s l i = -1 ∧
            oLT (sma xs s (i + k)) (sma xs l (i + k)) = true) := by
          rintro ⟨-, -, hc, -⟩; rw [h1] at hc; exact absurd hc (by decide)
        rw [if_neg hgt, if_neg hne1, if_neg hne2]
    · have hne1 : ¬ (j = i + k ∧ i + k < xs.length ∧ crossover xs s l i = 1 ∧
          oGT (sma xs s (i + k)) (sma xs l (i + k)) = true) := fun h => h1 h.2.2.1
      by_cases h2 : crossover xs s l i = -1
      · have h0 : crossover xs s l i ≠ 0 := by rw [h2]; decide
        rw [if_pos h0, if_pos hlen, if_neg h1, if_pos h2]
        by_cases hlt : oLT (sma xs s (i + k)) (sma xs l (i + k)) = true
        · rw [if_pos hlt]
          by_cases hj : j = i + k
          · subst hj
            rw [Function.update_same, if_neg hne1, if_pos ⟨rfl, hlen, h2, hlt⟩]
          · have hne2 : ¬ (j = i + k ∧ i + k < xs.length ∧ crossover xs s l i = -1 ∧
                oLT (sma xs s (i + k)) (sma xs l (i + k)) = true) := fun h => hj h.1
            rw [Function.update_noteq hj, if_neg hne1, if_neg hne2]
        · have hne2 : ¬ (j = i + k ∧ i + k < xs.length ∧ crossover xs s l i = -1 ∧
              oLT (sma xs s (i + k)) (sma xs l (i + k)) = true) := fun h => hlt h.2.2.2
          rw [if_neg hlt, if_neg hne1, if_neg hne2]
      · have hne2 : ¬ (j = i + k ∧ i + k < xs.length ∧ crossover xs s l i = -1 ∧
            oLT (sma xs s (i + k)) (sma xs l (i + k)) = true) := fun h => h2 h.2.2.1
        by_cases h0 : crossover xs s l i = 0
        · rw [if_neg (not_not_intro h0), if_neg hne1, if_neg hne2]
        · rw [if_pos h0, if_pos hlen, if_neg h1, if_neg h2, if_neg hne1, if_neg hne2]
  · have hne1 : ¬ (j = i + k ∧ i + k < xs.length ∧ crossover xs s l i = 1 ∧
        oGT (sma xs s (i + k)) (sma xs l (i + k)) = true) := fun h => hlen h.2.1
    have hne2 : ¬ (j = i + k ∧ i + k < xs.length ∧ crossover xs s l i = -1 ∧
        oLT (sma xs s (i + k)) (sma xs l (i + k)) = true) := fun h => hlen h.2.1
    by_cases h0 : crossover xs s l i = 0
    · rw [if_neg (not_not_intro h0), if_neg hne1, if_neg hne2]
    · rw [if_pos h0, if_neg hlen, if_neg hne1, if_neg hne2]

/-- Characterization of the confirmation loop: after folding `sigStep`
over the loop indices `0, …, m-1`, the value at index `j` is `±1` exactly
when the unique loop index `j - k` that targets `j` has run, carried a
crossover of that sign, had its target in range, and was confirmed there;
otherwise the initial column is untouched at `j`. -/
theorem sigfold_char (xs : List ℚ) (s l k : ℕ) :
    ∀ (m : ℕ) (f : ℕ → Int) (j : ℕ),
      ((List.range m).foldl (sigStep xs s l k) f) j =
        if k ≤ j ∧ j - k < m ∧ j < xs.length ∧ crossover xs s l (j - k) = 1 ∧
            oGT (sma xs s j) (sma xs l j) = true then 1
        else if k ≤ j ∧ j - k < m ∧ j < xs.length ∧ crossover xs s l (j - k) = -1 ∧
            oLT (sma xs s j) (sma xs l j) = true then -1
        else f j := by
  intro m
  induction m with
  | zero =>
    intro f j
    simp only [List.range_zero, List.foldl_nil]
    rw [if_neg (by rintro ⟨-, h, -⟩; omega), if_neg (by rintro ⟨-, h, -⟩; omega)]
  | succ m ih =>
    intro f j
    rw [List.range_succ, List.foldl_append, List.foldl_cons, List.foldl_nil,
      sigStep_apply]
    by_cases hj : j = m + k
    · subst hj
      have hsub : m + k - k = m := by omega
      rw [ih f (m + k)]
      have hin1 : ¬ (k ≤ m + k ∧ m + k - k < m ∧ m + k < xs.length ∧
          crossover xs s l (m + k - k) = 1 ∧
          oGT (sma xs s (m + k)) (sma xs l (m + k)) = true) := by
        rintro ⟨-, h, -⟩; omega
      have hin2 : ¬ (k ≤ m + k ∧ m + k - k < m ∧ m + k < xs.length ∧
          crossover xs s l (m + k - k) = -1 ∧
          oLT (sma xs s (m + k)) (sma xs l (m + k)) = true) := by
        rintro ⟨-, h, -⟩; omega
      rw [if_neg hin1, if_neg hin2]
      simp only [hsub, eq_self_iff_true, true_and, Nat.le_add_left, lt_add_one]
    · have hne1 : ¬ (j = m + k ∧ m + k < xs.length ∧ crossover xs s l m = 1 ∧
          oGT (sma xs s (m + k)) (sma xs l (m + k)) = true) := fun h => hj h.1
      have hne2 : ¬ (j = m + k ∧ m + k < xs.length ∧ crossover xs s l m = -1 ∧
          oLT (sma xs s (m + k)) (sma xs l (m + k)) = true) := fun h => hj h.1
      rw [if_neg hne1, if_neg hne2, ih f j]
      by_cases hk : k ≤ j
      · by_cases hm : j - k < m
        · have hm1 : j - k < m + 1 := by omega
          simp only [hk, hm, hm1, true_and]
        · have hm1 : ¬ j - k < m + 1 := by omega
          have hA : ¬ (k ≤ j ∧ j - k < m ∧ j < xs.length ∧
              crossover xs s l (j - k) = 1 ∧
              oGT (sma xs s j) (sma xs l j) = true) := by
            rintro ⟨-, h, -⟩; exact hm h
          have hB : ¬ (k ≤ j ∧ j - k < m ∧ j < xs.length ∧
              crossover xs s l (j - k) = -1 ∧
              oLT (sma xs s j) (sma xs l j) = true) := by
            rintro ⟨-, h, -⟩; exact hm h
          have hA1 : ¬ (k ≤ j ∧ j - k < m + 1 ∧ j < xs.length ∧
              crossover xs s l (j - k) = 1 ∧
              oGT (sma xs s j) (sma xs l j) = true) := by
            rintro ⟨-, h, -⟩; exact hm1 h
          have hB1 : ¬ (k ≤ j ∧ j - k < m + 1 ∧ j < xs.length ∧
              crossover xs s l (j - k) = -1 ∧
              oLT (sma xs s j) (sma xs l j) = true) := by
            rintro ⟨-, h, -⟩; exact hm1 h
          rw [if_neg hA, if_neg hB, if_neg hA1, if_neg hB1]
      · have hA : ¬ (k ≤ j ∧ j - k < m ∧ j < xs.length ∧
            crossover xs s l (j - k) = 1 ∧
            oGT (sma xs s j) (sma xs l j) = true) := fun h => hk h.1
        have hB : ¬ (k ≤ j ∧ j - k < m ∧ j < xs.length ∧
            crossover xs s l (j - k) = -1 ∧
            oLT (sma xs s j) (sma xs l j) = true) := fun h => hk h.1
        have hA1 : ¬ (k ≤ j ∧ j - k < m + 1 ∧ j < xs.length ∧
            crossover xs s l (j - k) = 1 ∧
            oGT (sma xs s j) (sma xs l j) = true) := fun h => hk h.1
        have hB1 : ¬ (k ≤ j ∧ j - k < m + 1 ∧ j < xs.length ∧
            crossover xs s l (j - k) = -1 ∧
            oLT (sma xs s j) (sma xs l j) = true) := fun h => hk h.1
        rw [if_neg hA, if_neg hB, if_neg hA1, if_neg hB1]

/-- C3: with `min_candles_after_cross = 1` the emitted signal series
equals the raw crossover series index by index; with lag `k > 1`, the
signal at index `j` is the direction of the crossover at `j - k` exactly
when that crossover exists, `j` is within range, and the short SMA is
still strictly above (golden) resp. strictly below (death) the long SMA
at `j`; every other index carries `0` — nothing is emitted for a dropped
crossover. -/
theorem C3_confirmation_lag (xs : List ℚ) (s l : ℕ) :
    (∀ i, signalSeries xs s l 1 i = crossover xs s l i) ∧
    (∀ k : Int, 1 < k → ∀ j,
      signalSeries xs s l k j =
        if k.toNat ≤ j ∧ j < xs.length ∧ crossover xs s l (j - k.toNat) = 1 ∧
            oGT (sma xs s j) (sma xs l j) = true then 1
        else if k.toNat ≤ j ∧ j < xs.length ∧ crossover xs s l (j - k.toNat) = -1 ∧
            oLT (sma xs s j) (sma xs l j) = true then -1
        else 0) := by
  constructor
  · intro i
    unfold signalSeries
    rw [if_neg (by decide)]
  · intro k hk j
    unfold signalSeries
    rw [if_pos hk, sigfold_char xs s l k.toNat xs.length (fun _ => 0) j]
    by_cases hc1 : k.toNat ≤ j ∧ j < xs.length ∧ crossover xs s l (j - k.toNat) = 1 ∧
        oGT (sma xs s j) (sma xs l j) = true
    · rw [if_pos ⟨hc1.1, by omega, hc1.2⟩, if_pos hc1]
    · have hc1' : ¬ (k.toNat ≤ j ∧ j - k.toNat < xs.length ∧ j < xs.length ∧
          crossover xs s l (j - k.toNat) = 1 ∧
          oGT (sma xs s j) (sma xs l j) = true) := by
        rintro ⟨h1, -, h3, h4, h5⟩; exact hc1 ⟨h1, h3, h4, h5⟩
      rw [if_neg hc1', if_neg hc1]
      by_cases hc2 : k.toNat ≤ j ∧ j < xs.length ∧ crossover xs s l (j - k.toNat) = -1 ∧
          oLT (sma xs s j) (sma xs l j) = true
      · rw [if_pos ⟨hc2.1, by omega, hc2.2⟩, if_pos hc2]
      · have hc2' : ¬ (k.toNat ≤ j ∧ j - k.toNat < xs.length ∧ j < xs.length ∧
            crossover xs s l (j - k.toNat) = -1 ∧
            oLT (sma xs s j) (sma xs l j) = true) := by
          rintro ⟨h1, -, h3, h4, h5⟩; exact hc2 ⟨h1, h3, h4, h5⟩
        rw [if_neg hc2', if_neg hc2]

/-- Witness for C3: on closes `[1, 0, 2, 3, 4]` with periods 1 and 2, the
lag-1 series copies the crossover series, and with lag 2 the golden cross
at index 2 is confirmed and emitted at index 4 while indices 2 and 3 stay
`0`. -/
theorem C3_confirmation_lag_witness :
    signalSeries [(1 : ℚ), 0, 2, 3, 4] 1 2 1 2 = crossover [(1 : ℚ), 0, 2, 3, 4] 1 2 2 ∧
    signalSeries [(1 : ℚ), 0, 2, 3, 4] 1 2 2 4 = 1 ∧
    signalSeries [(1 : ℚ), 0, 2, 3, 4] 1 2 2 2 = 0 ∧
    signalSeries [(1 : ℚ), 0, 2, 3, 4] 1 2 2 3 = 0 := by
  have hcross : crossover [(1 : ℚ), 0, 2, 3, 4] 1 2 2 = 1 := by
    have hd : smaDiff [(1 : ℚ), 0, 2, 3, 4] 1 2 2 = some 1 := by
      norm_num [smaDiff, sma, trailingWindow]
    have hp : smaDiffPrev [(1 : ℚ), 0, 2, 3, 4] 1 2 2 = some (-1/2) := by
      norm_num [smaDiffPrev, smaDiff, sma, trailingWindow]
    rw [crossover_some hd hp]
    norm_num
  have h3 : crossover [(1 : ℚ), 0, 2, 3, 4] 1 2 1 = 0 := by
    have hp : smaDiffPrev [(1 : ℚ), 0, 2, 3, 4] 1 2 1 = none := by
      norm_num [smaDiffPrev, smaDiff, sma, trailingWindow]
    exact crossover_none_prev hp
  refine ⟨(C3_confirmation_lag [(1 : ℚ), 0, 2, 3, 4] 1 2).1 2, ?_, ?_, ?_⟩
  · rw [(C3_confirmation_lag [(1 : ℚ), 0, 2, 3, 4] 1 2).2 2 (by decide) 4]
    rw [if_pos ?_]
    refine ⟨by decide, by decide, ?_, ?_⟩
    · show crossover [(1 : ℚ), 0, 2, 3, 4] 1 2 2 = 1
      exact hcross
    · norm_num [oGT, sma, trailingWindow]
  · have h0 : crossover [(1 : ℚ), 0, 2, 3, 4] 1 2 0 = 0 :=
      crossover_none_diff (by norm_num [smaDiff, sma, trailingWindow])
    rw [(C3_confirmation_lag [(1 : ℚ), 0, 2, 3, 4] 1 2).2 2 (by decide) 2]
    have hi2 : (2 : ℕ) - (2 : Int).toNat = 0 := rfl
    have hn1 : ¬ ((2 : Int).toNat ≤ 2 ∧ 2 < [(1 : ℚ), 0, 2, 3, 4].length ∧
        crossover [(1 : ℚ), 0, 2, 3, 4] 1 2 (2 - (2 : Int).toNat) = 1 ∧
        oGT (sma [(1 : ℚ), 0, 2, 3, 4] 1 2) (sma [(1 : ℚ), 0, 2, 3, 4] 2 2) = true) := by
      rintro ⟨-, -, hc, -⟩
      rw [hi2, h0] at hc
      exact absurd hc (by decide)
    have hn2 : ¬ ((2 : Int).toNat ≤ 2 ∧ 2 < [(1 : ℚ), 0, 2, 3, 4].length ∧
        crossover [(1 : ℚ), 0, 2, 3, 4] 1 2 (2 - (2 : Int).toNat) = -1 ∧
        oLT (sma [(1 : ℚ), 0, 2, 3, 4] 1 2) (sma [(1 : ℚ), 0, 2, 3, 4] 2 2) = true) := by
      rintro ⟨-, -, hc, -⟩
      rw [hi2, h0] at hc
      exact absurd hc (by decide)
    rw [if_neg hn1, if_neg hn2]
  · rw [(C3_confirmation_lag [(1 : ℚ), 0, 2, 3, 4] 1 2).2 2 (by decide) 3]
    have hi3 : (3 : ℕ) - (2 : Int).toNat = 1 := rfl
    have hn1 : ¬ ((2 : Int).toNat ≤ 3 ∧ 3 < [(1 : ℚ), 0, 2, 3, 4].length ∧
        crossover [(1 : ℚ), 0, 2, 3, 4] 1 2 (3 - (2 : Int).toNat) = 1 ∧
        oGT (sma [(1 : ℚ), 0, 2, 3, 4] 1 3) (sma [(1 : ℚ), 0, 2, 3, 4] 2 3) = true) := by
      rintro ⟨-, -, hc, -⟩
      rw [hi3, h3] at hc
      exact absurd hc (by decide)
    have hn2 : ¬ ((2 : Int).toNat ≤ 3 ∧ 3 < [(1 : ℚ), 0, 2, 3, 4].length ∧
        crossover [(1 : ℚ), 0, 2, 3, 4] 1 2 (3 - (2 : Int).toNat) = -1 ∧
        oLT (sma [(1 : ℚ), 0, 2, 3, 4] 1 3) (sma [(1 : ℚ), 0, 2, 3, 4] 2 3) = true) := by
      rintro ⟨-, -, hc, -⟩
      rw [hi3, h3] at hc
      exact absurd hc (by decide)
    rw [if_neg hn1, if_neg hn2]

/-- C5 counterexample: `macd_line` of the two-element series `[1, 2]` has
the value `0` at index 0, although the slow EMA window (26) is far from
filled — `TechnicalIndicators.macd` passes no `min_periods`, so MACD does
NOT share the "undefined until the window fills" policy. -/
theorem C5_macd_counterexample :
    macdLine [(1 : ℚ), 2] 12 26 0 = some 0 ∧ (0 : ℕ) + 1 < 26 := by
  constructor
  · norm_num [macdLine, ewmVal]
  · norm_num

/-- C5 amended: SMA, EMA and ATR are undefined exactly at the indices
before their `period`-window fills; the Bollinger bands (for
`period ≥ 2`, since pandas' sample std needs two observations) likewise;
RSI is undefined before its window fills and, after that, undefined
exactly when both the rolling gain mean and the rolling loss mean are
zero (the `0/0` float case); MACD, by contrast, has a value at every
in-range index, even before its windows fill. -/
theorem C5_indicator_windows (xs high low close : List ℚ) (p : ℕ) :
    (∀ i, i + 1 < p → sma xs p i = none) ∧
    (∀ i, p ≤ i + 1 → i < xs.length → (sma xs p i).isSome = true) ∧
    (∀ i, i + 1 < p → ema xs p i = none) ∧
    (∀ i, p ≤ i + 1 → i < xs.length → (ema xs p i).isSome = true) ∧
    (∀ i, i + 1 < p → atr high low close p i = none) ∧
    (∀ i, p ≤ i + 1 → i < high.length → (atr high low close p i).isSome = true) ∧
    (∀ i, i + 1 < p →
      bollingerMiddle xs p i = none ∧ bollingerBandDefined xs p i = false) ∧
    (2 ≤ p → ∀ i, p ≤ i + 1 → i < xs.length → bollingerBandDefined xs p i = true) ∧
    (∀ i, i + 1 < p → rsi xs p i = none) ∧
    (∀ i, p ≤ i + 1 → i < xs.length →
      (rsi xs p i = none ↔
        sma (rsiLosses xs) p i = some 0 ∧ sma (rsiGains xs) p i = some 0)) ∧
    (∀ fast slow sig i, i < xs.length →
      (macdLine xs fast slow i).isSome = true ∧
      (macdSignalLine xs fast slow sig i).isSome = true ∧
      (macdHistogram xs fast slow sig i).isSome = true) := by
  refine ⟨?_, ?_, ?_, ?_, ?_, ?_, ?_, ?_, ?_, ?_, ?_⟩
  · intro i hi
    rw [sma, if_neg (by rintro ⟨h, -⟩; omega)]
  · intro i h1 h2
    rw [sma, if_pos ⟨h1, h2⟩]
    rfl
  · intro i hi
    rw [ema, if_neg (by rintro ⟨h, -⟩; omega)]
  · intro i h1 h2
    rw [ema, if_pos ⟨h1, h2⟩]
    rfl
  · intro i hi
    rw [atr, sma, if_neg (by rintro ⟨h, -⟩; omega)]
  · intro i h1 h2
    have hlen : i < (trueRangeList high low close).length := by
      rw [trueRangeList, List.length_map, List.length_range]
      exact h2
    rw [atr, sma, if_pos ⟨h1, hlen⟩]
    rfl
  · intro i hi
    constructor
    · rw [bollingerMiddle, sma, if_neg (by rintro ⟨h, -⟩; omega)]
    · rw [bollingerBandDefined, bollingerMiddle, sma,
        if_neg (by rintro ⟨h, -⟩; omega)]
      rfl
  · intro h2p i h1 h2
    rw [bollingerBandDefined, bollingerMiddle, sma, if_pos ⟨h1, h2⟩,
      rollingVarSample, if_pos ⟨h1, h2, h2p⟩]
    rfl
  · intro i hi
    have hg : sma (rsiGains xs) p i = none := by
      rw [sma, if_neg (by rintro ⟨h, -⟩; omega)]
    rw [rsi, hg]
  · intro i h1 h2
    have hlg : i < (rsiGains xs).length := by
      rw [rsiGains, List.length_map, List.length_range]
      exact h2
    have hll : i < (rsiLosses xs).length := by
      rw [rsiLosses, List.length_map, List.length_range]
      exact h2
    have hg : sma (rsiGains xs) p i =
        some ((trailingWindow (rsiGains xs) p i).sum / (p : ℚ)) := by
      rw [sma, if_pos ⟨h1, hlg⟩]
    have hl : sma (rsiLosses xs) p i =
        some ((trailingWindow (rsiLosses xs) p i).sum / (p : ℚ)) := by
      rw [sma, if_pos ⟨h1, hll⟩]
    rw [rsi, hg, hl]
    by_cases hL : (trailingWindow (rsiLosses xs) p i).sum / (p : ℚ) = 0
    · by_cases hG : (trailingWindow (rsiGains xs) p i).sum / (p : ℚ) = 0
      · simp [hL, hG]
      · simp [hL, hG]
    · simp [hL]
  · intro fast slow sig i h2
    refine ⟨?_, ?_, ?_⟩
    · rw [macdLine, if_pos h2]
      rfl
    · rw [macdSignalLine, if_pos h2]
      rfl
    · rw [macdHistogram, macdLine, macdSignalLine, if_pos h2, if_pos h2]
      rfl

/-- Witness for C5 amended: with period 3 on a length-4 series, SMA, EMA
and RSI are undefined at index 1 and SMA, EMA and the Bollinger bands are
defined at index 2; RSI at index 3 of the strictly increasing series
`[1, 2, 3, 4]` is defined (non-`none`); MACD is defined at index 0. -/
theorem C5_indicator_windows_witness :
    sma [(1 : ℚ), 2, 3, 4] 3 1 = none ∧
    ema [(1 : ℚ), 2, 3, 4] 3 1 = none ∧
    (sma [(1 : ℚ), 2, 3, 4] 3 2).isSome = true ∧
    (ema [(1 : ℚ), 2, 3, 4] 3 2).isSome = true ∧
    bollingerBandDefined [(1 : ℚ), 2, 3, 4] 3 2 = true ∧
    rsi [(1 : ℚ), 2, 3, 4] 3 1 = none ∧
    (macdLine [(1 : ℚ), 2, 3, 4] 12 26 0).isSome = true := by
  have h := C5_indicator_windows [(1 : ℚ), 2, 3, 4] [] [] [] 3
  refine ⟨h.1 1 (by decide), h.2.2.1 1 (by decide),
    h.2.1 2 (by decide) (by decide), h.2.2.2.1 2 (by decide) (by decide),
    h.2.2.2.2.2.2.2.1 (by decide) 2 (by decide) (by decide),
    h.2.2.2.2.2.2.2.2.1 1 (by decide),
    (h.2.2.2.2.2.2.2.2.2.2 12 26 9 0 (by decide)).1⟩

/-- C7: before the engine reaches the computed state, every query yields
an explicit not-run result — an empty result for `get_all_signals` (for
any requested filter) and `get_summary`, an error for `export_signals`
and `get_performance_summary` — and never stale or partial data. -/
theorem C7_not_run_queries (e : EngineState)
    (h : ∀ rows, e ≠ EngineState.computed rows) :
    (∀ t, getAllSignals e t = []) ∧
    getSummary e = none ∧
    (∃ msg, exportSignals e = Except.error msg) ∧
    (∃ msg, enginePerformanceSummary e = Except.error msg) := by
  cases e with
  | unloaded => exact ⟨fun t => rfl, rfl, ⟨_, rfl⟩, ⟨_, rfl⟩⟩
  | loaded c => exact ⟨fun t => rfl, rfl, ⟨_, rfl⟩, ⟨_, rfl⟩⟩
  | computed rows => exact absurd rfl (h rows)

/-- Witness for C7: the loaded-but-not-run state with an empty candle
list answers every query with an empty result or an error. -/
theorem C7_not_run_queries_witness :
    (∀ t, getAllSignals (EngineState.loaded []) t = []) ∧
    getSummary (EngineState.loaded []) = none ∧
    (∃ msg, exportSignals (EngineState.loaded []) = Except.error msg) ∧
    (∃ msg, enginePerformanceSummary (EngineState.loaded []) = Except.error msg) :=
  C7_not_run_queries (EngineState.loaded [])
    (fun _ h => EngineState.noConfusion h)

/-- C8 counterexample: an input frame with all six required columns whose
rows are NOT in ascending time order loads successfully — `load_data`
sorts instead of raising — refuting "raises a validation error ... when
the input is malformed/unsorted". -/
theorem C8_unsorted_counterexample :
    loadData ⟨requiredColumns,
      [⟨2, 1, 1, 1, 1, 1⟩, ⟨1, 1, 1, 1, 1, 1⟩]⟩ =
      Except.ok [⟨1, 1, 1, 1, 1, 1⟩, ⟨2, 1, 1, 1, 1, 1⟩] := by
  norm_num [loadData, requiredColumns, List.insertionSort, List.orderedInsert,
    candleLE]

/-- C8 amended: `load_data` raises exactly when a required candle field
is missing; unsorted (but complete) input is NOT rejected — it is
normalized: the stored sequence is a permutation of the caller's rows
sorted ascending by timestamp, and being a pure value it is unaffected by
anything the caller later does. -/
theorem C8_load_data (frame : InFrame) :
    ((∃ msg, loadData frame = Except.error msg) ↔
      ¬ (∀ c ∈ requiredColumns, c ∈ frame.cols)) ∧
    (∀ rows, loadData frame = Except.ok rows →
      rows.Pairwise candleLE ∧ rows.Perm frame.rows) := by
  constructor
  · constructor
    · rintro ⟨msg, hmsg⟩ hall
      rw [loadData, if_pos] at hmsg
      · exact Except.noConfusion hmsg
      · rw [List.all_eq_true]
        intro c hc
        simpa using hall c hc
    · intro hmiss
      rw [loadData, if_neg]
      · exact ⟨_, rfl⟩
      · intro hall
        apply hmiss
        intro c hc
        have := List.all_eq_true.mp hall c hc
        simpa using this
  · intro rows hrows
    by_cases hcond : requiredColumns.all (fun c => frame.cols.contains c) = true
    · rw [loadData, if_pos hcond] at hrows
      obtain rfl : List.insertionSort candleLE frame.rows = rows :=
        by injection hrows
      exact ⟨List.sorted_insertionSort candleLE frame.rows,
        List.perm_insertionSort candleLE frame.rows⟩
    · rw [loadData, if_neg hcond] at hrows
      exact Except.noConfusion hrows

/-- Witness for C8 amended: an in-order two-row frame with all columns
loads to a sorted permutation of itself, and a frame missing the `volume`
column errors. -/
theorem C8_load_data_witness :
    ((∃ msg, loadData ⟨["time", "open", "high", "low", "close"], []⟩ =
        Except.error msg)) ∧
    ([⟨1, 1, 1, 1, 1, 1⟩, ⟨2, 1, 1, 1, 1, 1⟩].Pairwise candleLE ∧
      List.Perm [⟨1, 1, 1, 1, 1, 1⟩, ⟨2, 1, 1, 1, 1, 1⟩]
        [(⟨1, 1, 1, 1, 1, 1⟩ : CandleRow), ⟨2, 1, 1, 1, 1, 1⟩]) := by
  constructor
  · refine (C8_load_data ⟨["time", "open", "high", "low", "close"], []⟩).1.mpr ?_
    intro hall
    have := hall "volume" (by simp [requiredColumns])
    simp at this
  · refine (C8_load_data ⟨requiredColumns,
      [⟨1, 1, 1, 1, 1, 1⟩, ⟨2, 1, 1, 1, 1, 1⟩]⟩).2
      [⟨1, 1, 1, 1, 1, 1⟩, ⟨2, 1, 1, 1, 1, 1⟩] ?_
    norm_num [loadData, requiredColumns, List.insertionSort, List.orderedInsert,
      candleLE]

/-- C9: `run()` on a loaded engine is deterministic — the result is the
pure function `calculateAndGenerate` of the loaded frame and the
configuration — and idempotent: running again on the resulting engine
reproduces it exactly, hence identical `sma_short`, `sma_long`,
`crossover`, `signal` and `signal_strength` columns at every index. -/
theorem C9_run_deterministic_idempotent (s l : ℕ) (k : Int) (e e' : SMAEngine)
    (h : runStrategy s l k e = Except.ok e') :
    runStrategy s l k e' = Except.ok e' ∧
    (∀ f, e.data = some f → e'.data = some (calculateAndGenerate s l k f)) := by
  obtain ⟨d⟩ := e
  cases d with
  | none => exact absurd h (fun hh => Except.noConfusion hh)
  | some f =>
    obtain rfl : ({ data := some (calculateAndGenerate s l k f) } : SMAEngine) = e' :=
      by injection h
    refine ⟨rfl, ?_⟩
    intro f' hf'
    obtain rfl : f = f' := by injection hf'
    rfl

/-- Witness for C9: a concrete one-candle engine runs to a fixed point of
`runStrategy`. -/
theorem C9_run_deterministic_idempotent_witness :
    runStrategy 1 2 1 ⟨some (calculateAndGenerate 1 2 1 ⟨[0], [1], none⟩)⟩ =
      Except.ok ⟨some (calculateAndGenerate 1 2 1 ⟨[0], [1], none⟩)⟩ ∧
    (⟨some (calculateAndGenerate 1 2 1 ⟨[0], [1], none⟩)⟩ : SMAEngine).data =
      some (calculateAndGenerate 1 2 1 ⟨[0], [1], none⟩) := by
  have h := C9_run_deterministic_idempotent 1 2 1 ⟨some ⟨[0], [1], none⟩⟩
    ⟨some (calculateAndGenerate 1 2 1 ⟨[0], [1], none⟩)⟩ rfl
  exact ⟨h.1, h.2 ⟨[0], [1], none⟩ rfl⟩

end ForexAlgo
